import Mathlib

/-!
Shallow embedding of the sub-resource lifecycle core of
terraform-provider-azuread: the OAuth2 permission resource for applications
(internal/services/aadgraph/application_oauth2_permission_resource.go), the
users data source (internal/services/msgraph/users_data_source.go) and the
groups data source (GroupsDataRead). Remote calls (client.Get, client.Patch,
lookup loops) are embedded as explicit inputs describing the remote behaviour,
and the operations additionally return the list of remote events they emit, so
that locking and writeback order can be stated.

The helper package internal/services/aadgraph/graph and the lock helpers
tf.LockByName / tf.UnlockByName are not part of the provided sources; their
definitions below are modelled from the specification (sections 4.1 to 4.3)
and are marked as such.
-/

deriving instance DecidableEq for Except

namespace AzureAD

/-- An OAuth2 permission, mirroring graphrbac.OAuth2Permission as populated in
applicationOAuth2PermissionResourceCreateUpdate (the eight fields set from the
schema). The Go fields are string pointers always set via utils.String at this
call site, so they are embedded as plain values. -/
structure OAuth2Permission where
  adminConsentDescription : String
  adminConsentDisplayName : String
  id : String
  isEnabled : Bool
  permissionType : String
  userConsentDescription : String
  userConsentDisplayName : String
  value : String
deriving DecidableEq

namespace graph

/-- Errors of the collection reconcilers: graph.AlreadyExistsError is a
distinct Go error type tested with a type assertion in the create path; the
not-found case is a plain error. -/
inductive ReconcileError where
  | alreadyExists (id : String)
  | notFound (id : String)
deriving DecidableEq

/-- Modelled from the spec: graph.OAuth2PermissionFindById is not in the
provided sources; section 4.3 specifies findById as returning the matching
sub-resource or absence. The application argument is embedded as its
permission collection. -/
def OAuth2PermissionFindById (perms : List OAuth2Permission) (pid : String) :
    Option OAuth2Permission :=
  perms.find? (fun p => p.id = pid)

/-- Modelled from the spec: graph.OAuth2PermissionAdd is not in the provided
sources; section 4.3 specifies add as failing with AlreadyExists when the
candidate id is already present and otherwise appending, preserving order. -/
def OAuth2PermissionAdd (perms : List OAuth2Permission) (p : OAuth2Permission) :
    Except ReconcileError (List OAuth2Permission) :=
  if perms.any (fun q => q.id = p.id) then .error (.alreadyExists p.id)
  else .ok (perms ++ [p])

/-- Modelled from the spec: graph.OAuth2PermissionUpdate is not in the
provided sources; section 4.3 specifies update as failing with NotFound when
the id is absent and otherwise replacing the matching entry in place. -/
def OAuth2PermissionUpdate (perms : List OAuth2Permission) (p : OAuth2Permission) :
    Except ReconcileError (List OAuth2Permission) :=
  if perms.any (fun q => q.id = p.id) then
    .ok (perms.map (fun q => if q.id = p.id then p else q))
  else .error (.notFound p.id)

/-- Modelled from the spec: graph.OAuth2PermissionResultDisableById is not in
the provided sources; section 4.3 specifies disable as failing with NotFound
when absent and otherwise clearing the enabled flag of the matching entry. -/
def OAuth2PermissionResultDisableById (perms : List OAuth2Permission) (pid : String) :
    Except ReconcileError (List OAuth2Permission) :=
  if perms.any (fun q => q.id = pid) then
    .ok (perms.map (fun q => if q.id = pid then { q with isEnabled := false } else q))
  else .error (.notFound pid)

/-- Modelled from the spec: graph.OAuth2PermissionResultRemoveById is not in
the provided sources; section 4.3 specifies remove as excluding the matching
entry, failing with NotFound when it is absent. -/
def OAuth2PermissionResultRemoveById (perms : List OAuth2Permission) (pid : String) :
    Except ReconcileError (List OAuth2Permission) :=
  if perms.any (fun q => q.id = pid) then
    .ok (perms.filter (fun q => ¬ (q.id = pid)))
  else .error (.notFound pid)

/-- The composite identifier of an OAuth2 permission: parent object id plus
permission id. -/
structure OAuth2PermissionId where
  objectId : String
  permissionId : String
deriving DecidableEq

/-- graph.OAuth2PermissionIdFrom as used at the create site: builds the
composite identifier from the two components. -/
def OAuth2PermissionIdFrom (objectId permissionId : String) : OAuth2PermissionId :=
  ⟨objectId, permissionId⟩

/-- Splits a character list on a delimiter character; the result always has
one more part than there are delimiter occurrences. -/
def splitOnChar (d : Char) : List Char → List (List Char)
  | [] => [[]]
  | c :: cs =>
    match splitOnChar d cs with
    | [] => [[c]]
    | p :: ps => if c = d then [] :: p :: ps else (c :: p) :: ps

/-- Modelled from the spec: the serialized form of the composite identifier
(the String method used for d.SetId and import); section 4.1 specifies a
delimiter-joined encoding. -/
def OAuth2PermissionId.idString (i : OAuth2PermissionId) : String :=
  i.objectId ++ "/" ++ i.permissionId

/-- Modelled from the spec: graph.ParseOAuth2PermissionId is not in the
provided sources; section 4.1 specifies parse as failing with
MalformedIdentifier when the delimiter is absent or either part is empty. -/
def ParseOAuth2PermissionId (s : String) : Except String OAuth2PermissionId :=
  match splitOnChar '/' s.toList with
  | [a, b] =>
    if a = [] ∨ b = [] then .error "malformed OAuth2 permission identifier"
    else .ok ⟨String.mk a, String.mk b⟩
  | _ => .error "malformed OAuth2 permission identifier"

end graph

namespace aadgraph

open graph

/-- The shared lock name for the parent application resource, used as the
first component of the named-lock key by both the create or update path and
the delete path. -/
def resourceApplicationName : String := "azuread_application"

/-- Remote and helper events emitted by the lifecycle operations, in program
order: named-lock acquire and release (tf.LockByName, tf.UnlockByName),
the parent fetch (client.Get), the parent writeback (client.Patch, with the
collection value written), and the invocation of a reconciler. -/
inductive RemoteEvent where
  | lockByName (resourceName objectId : String)
  | unlockByName (resourceName objectId : String)
  | get (objectId : String)
  | patch (objectId : String) (perms : List OAuth2Permission)
  | reconcile (fn : String)
deriving DecidableEq

/-- Behaviour of the remote client.Get for the parent application: not found,
a transport or service error, or the application with its permission
collection. -/
inductive FetchResult where
  | notFound
  | fetchError (msg : String)
  | found (perms : List OAuth2Permission)
deriving DecidableEq

/-- Behaviour of a remote client.Patch call. -/
inductive PatchResult where
  | ok
  | patchError (msg : String)
deriving DecidableEq

/-- Errors returned by the lifecycle operations. importAsExists mirrors
tf.ImportAsExistsError, a distinct signal produced only on the create path;
appNotFound mirrors the distinct message for a missing parent application on
the create or update path; opError covers the remaining fmt.Errorf wrappers. -/
inductive TfError where
  | importAsExists (resourceName idString : String)
  | appNotFound (objectId : String)
  | opError (msg : String)
deriving DecidableEq

/-- Inputs of applicationOAuth2PermissionResourceCreateUpdate that come from
the schema layer: the parent object id, the candidate permission (with its id
already supplied or generated, section 6), and d.IsNewResource. -/
structure CreateUpdateInput where
  objectId : String
  permission : OAuth2Permission
  isNewResource : Bool
deriving DecidableEq

/-- applicationOAuth2PermissionResourceCreateUpdate: lock the parent by name,
fetch it, reconcile (add when new, find-then-update otherwise), patch the
parent with the new collection, and set the composite id. On success the Go
function tail-calls the read function; that trailing read is elided here and
the committed composite id string is returned instead. The deferred unlock is
the last event on every path. -/
def applicationOAuth2PermissionResourceCreateUpdate
    (input : CreateUpdateInput) (fetch : FetchResult) (patch : PatchResult) :
    Except TfError String × List RemoteEvent :=
  let i := OAuth2PermissionIdFrom input.objectId input.permission.id
  let lockEv := RemoteEvent.lockByName resourceApplicationName i.objectId
  let unlockEv := RemoteEvent.unlockByName resourceApplicationName i.objectId
  let getEv := RemoteEvent.get i.objectId
  match fetch with
  | .notFound => (.error (.appNotFound i.objectId), [lockEv, getEv, unlockEv])
  | .fetchError m => (.error (.opError m), [lockEv, getEv, unlockEv])
  | .found perms =>
    if input.isNewResource then
      match OAuth2PermissionAdd perms input.permission with
      | .error (.alreadyExists _) =>
        (.error (.importAsExists "azuread_application_oauth2_permission" i.idString),
         [lockEv, getEv, .reconcile "add", unlockEv])
      | .error _ =>
        (.error (.opError "adding OAuth2 Permission"),
         [lockEv, getEv, .reconcile "add", unlockEv])
      | .ok newPermissions =>
        match patch with
        | .patchError m =>
          (.error (.opError m),
           [lockEv, getEv, .reconcile "add", .patch i.objectId newPermissions, unlockEv])
        | .ok =>
          (.ok i.idString,
           [lockEv, getEv, .reconcile "add", .patch i.objectId newPermissions, unlockEv])
    else
      match OAuth2PermissionFindById perms i.permissionId with
      | none =>
        (.error (.opError "OAuth2 Permission was not found for Application"),
         [lockEv, getEv, .reconcile "findById", unlockEv])
      | some _ =>
        match OAuth2PermissionUpdate perms input.permission with
        | .error _ =>
          (.error (.opError "updating OAuth2 Permission"),
           [lockEv, getEv, .reconcile "findById", .reconcile "update", unlockEv])
        | .ok newPermissions =>
          match patch with
          | .patchError m =>
            (.error (.opError m),
             [lockEv, getEv, .reconcile "findById", .reconcile "update",
              .patch i.objectId newPermissions, unlockEv])
          | .ok =>
            (.ok i.idString,
             [lockEv, getEv, .reconcile "findById", .reconcile "update",
              .patch i.objectId newPermissions, unlockEv])

/-- Output of the read operation: the returned result, the tracked resource
id after the call (d.SetId with the empty string clears the tracked
identity), and the permission whose fields were written to state, when any. -/
structure ReadOutput where
  result : Except TfError Unit
  resourceId : String
  stateSet : Option OAuth2Permission
deriving DecidableEq

/-- applicationOAuth2PermissionResourceRead: parse the tracked id, fetch the
parent (clearing the tracked id and returning success when the parent is
gone), find the permission by id (clearing the tracked id and returning
success when it is absent), otherwise set the state fields. No lock is taken
and no patch is issued on this path. -/
def applicationOAuth2PermissionResourceRead (rid : String) (fetch : FetchResult) :
    ReadOutput × List RemoteEvent :=
  match ParseOAuth2PermissionId rid with
  | .error _ => (⟨.error (.opError "parsing OAuth2 Permission ID"), rid, none⟩, [])
  | .ok i =>
    match fetch with
    | .notFound => (⟨.ok (), "", none⟩, [.get i.objectId])
    | .fetchError m => (⟨.error (.opError m), rid, none⟩, [.get i.objectId])
    | .found perms =>
      match OAuth2PermissionFindById perms i.permissionId with
      | none => (⟨.ok (), "", none⟩, [.get i.objectId, .reconcile "findById"])
      | some p => (⟨.ok (), rid, some p⟩, [.get i.objectId, .reconcile "findById"])

/-- applicationOAuth2PermissionResourceDelete: parse the tracked id, lock the
parent by name once, fetch it (returning success without any write when the
parent is gone), disable the permission and patch, then remove the permission
from the originally fetched collection and patch again. Both patches happen
under the single lock acquisition; the deferred unlock is the last event on
every path after the lock was taken. -/
def applicationOAuth2PermissionResourceDelete
    (rid : String) (fetch : FetchResult) (patchDisable patchRemove : PatchResult) :
    Except TfError Unit × List RemoteEvent :=
  match ParseOAuth2PermissionId rid with
  | .error _ => (.error (.opError "parsing OAuth2 Permission ID"), [])
  | .ok i =>
    let lockEv := RemoteEvent.lockByName resourceApplicationName i.objectId
    let unlockEv := RemoteEvent.unlockByName resourceApplicationName i.objectId
    let getEv := RemoteEvent.get i.objectId
    match fetch with
    | .notFound => (.ok (), [lockEv, getEv, unlockEv])
    | .fetchError m => (.error (.opError m), [lockEv, getEv, unlockEv])
    | .found perms =>
      match OAuth2PermissionResultDisableById perms i.permissionId with
      | .error _ =>
        (.error (.opError "could not disable OAuth2 Permission prior to removal"),
         [lockEv, getEv, .reconcile "disable", unlockEv])
      | .ok disabledPermissions =>
        match patchDisable with
        | .patchError m =>
          (.error (.opError m),
           [lockEv, getEv, .reconcile "disable",
            .patch i.objectId disabledPermissions, unlockEv])
        | .ok =>
          match OAuth2PermissionResultRemoveById perms i.permissionId with
          | .error _ =>
            (.error (.opError "could not remove OAuth2 Permission"),
             [lockEv, getEv, .reconcile "disable",
              .patch i.objectId disabledPermissions, .reconcile "remove", unlockEv])
          | .ok removedPermissions =>
            match patchRemove with
            | .patchError m =>
              (.error (.opError m),
               [lockEv, getEv, .reconcile "disable",
                .patch i.objectId disabledPermissions, .reconcile "remove",
                .patch i.objectId removedPermissions, unlockEv])
            | .ok =>
              (.ok (),
               [lockEv, getEv, .reconcile "disable",
                .patch i.objectId disabledPermissions, .reconcile "remove",
                .patch i.objectId removedPermissions, unlockEv])

/-- Selector for lock-acquisition events. -/
def RemoteEvent.isLock : RemoteEvent → Bool
  | .lockByName _ _ => true
  | _ => false

/-- Selector for lock-release events. -/
def RemoteEvent.isUnlock : RemoteEvent → Bool
  | .unlockByName _ _ => true
  | _ => false

/-- Selector for writeback events. -/
def RemoteEvent.isPatch : RemoteEvent → Bool
  | .patch _ _ => true
  | _ => false

/-- Selector for reconciler invocations. -/
def RemoteEvent.isReconcile : RemoteEvent → Bool
  | .reconcile _ => true
  | _ => false

/-- The sequence of collection values written back by a trace, in commit
order. -/
def patchesOf (tr : List RemoteEvent) : List (List OAuth2Permission) :=
  tr.filterMap (fun e => match e with | .patch _ ps => some ps | _ => none)

end aadgraph

namespace msgraph

/-- A user, mirroring the fields of models.User that usersDataRead touches;
the Go fields are pointers, embedded as options. -/
structure MsUser where
  id : Option String
  userPrincipalName : Option String
  mailNickname : Option String
  accountEnabled : Option Bool
  displayName : Option String
  mail : Option String
  onPremisesImmutableId : Option String
  onPremisesSamAccountName : Option String
  onPremisesUserPrincipalName : Option String
  usageLocation : Option String
deriving DecidableEq

/-- Outcome of one lookup iteration of usersDataRead: the remote call failed,
the filter query matched no user (the empty list branch of the mail nickname
and user principal name loops), or a user was obtained. -/
inductive LookupOutcome where
  | lookupError (msg : String)
  | noMatch
  | foundUser (u : MsUser)
deriving DecidableEq

/-- The lookup loop of usersDataRead over the requested identifiers, one
outcome per identifier: a failed call or an empty result is skipped when
ignoreMissing is set and otherwise aborts the read with an error; found users
are accumulated in order. -/
def usersLookupLoop (ignoreMissing : Bool) : List LookupOutcome → Except String (List MsUser)
  | [] => .ok []
  | .lookupError m :: os =>
    if ignoreMissing then usersLookupLoop ignoreMissing os else .error m
  | .noMatch :: os =>
    if ignoreMissing then usersLookupLoop ignoreMissing os else .error "no user found"
  | .foundUser u :: os =>
    (usersLookupLoop ignoreMissing os).map (fun us => u :: us)

/-- Outcome of the whole users read: success with the users whose fields were
written to state, an error return, or the nil-pointer dereference of
MailNickname that the Go code can reach. -/
inductive UsersReadOutcome where
  | ok (users : List MsUser)
  | readError (msg : String)
  | nilDeref
deriving DecidableEq

/-- The result-building loop of usersDataRead: each user is guarded for a nil
ID or UserPrincipalName only, then its MailNickname is dereferenced without a
guard, which in the original program is a nil-pointer dereference when that
field is nil. -/
def usersBuild : List MsUser → UsersReadOutcome
  | [] => .ok []
  | u :: us =>
    if u.id = none ∨ u.userPrincipalName = none then
      .readError "user with null ID or UPN was found"
    else
      match u.mailNickname with
      | none => .nilDeref
      | some _ =>
        match usersBuild us with
        | .ok rest => .ok (u :: rest)
        | e => e

/-- usersDataRead: run the lookup loop, then check the found count against
the requested count unless ignoreMissing is set, then build the result. The
expected count is the number of requested identifiers, one lookup outcome
each. -/
def usersDataRead (ignoreMissing : Bool) (lookups : List LookupOutcome) : UsersReadOutcome :=
  match usersLookupLoop ignoreMissing lookups with
  | .error m => .readError m
  | .ok users =>
    if ¬ignoreMissing ∧ users.length ≠ lookups.length then
      .readError "unexpected number of users returned"
    else usersBuild users

/-- The users obtained by the successful iterations, in order. -/
def foundUsers (lookups : List LookupOutcome) : List MsUser :=
  lookups.filterMap (fun o => match o with | .foundUser u => some u | _ => none)

/-- A group, mirroring the fields of graphrbac.ADGroup that GroupsDataRead
touches. -/
structure ADGroup where
  objectID : Option String
  displayName : Option String
deriving DecidableEq

/-- Outcome of one lookup iteration of GroupsDataRead: there is no empty
result branch and no ignore-missing flag; a failed call always aborts. -/
inductive GroupLookupOutcome where
  | groupLookupError (msg : String)
  | foundGroup (g : ADGroup)
deriving DecidableEq

/-- The lookup loop of GroupsDataRead: any failed lookup aborts the read. -/
def groupsLookupLoop : List GroupLookupOutcome → Except String (List ADGroup)
  | [] => .ok []
  | .groupLookupError m :: _ => .error m
  | .foundGroup g :: os => (groupsLookupLoop os).map (fun gs => g :: gs)

/-- Outcome of the whole groups read. -/
inductive GroupsReadOutcome where
  | ok (groups : List ADGroup)
  | readError (msg : String)
deriving DecidableEq

/-- The result-building loop of GroupsDataRead: both touched fields are
guarded, so there is no unguarded dereference on this path. -/
def groupsBuild : List ADGroup → GroupsReadOutcome
  | [] => .ok []
  | g :: gs =>
    if g.objectID = none ∨ g.displayName = none then
      .readError "Group with nil ObjectID or DisplayName was returned"
    else
      match groupsBuild gs with
      | .ok rest => .ok (g :: rest)
      | e => e

/-- GroupsDataRead: run the lookup loop, then unconditionally check the found
count against the requested count, then build the result. There is no
ignore-missing flag on this path. -/
def GroupsDataRead (lookups : List GroupLookupOutcome) : GroupsReadOutcome :=
  match groupsLookupLoop lookups with
  | .error m => .readError m
  | .ok groups =>
    if groups.length ≠ lookups.length then
      .readError "Unexpected number of groups returned"
    else groupsBuild groups

end msgraph

namespace lockmodel

open graph

/-- Modelled from the spec: the named-lock discipline of tf.LockByName and
tf.UnlockByName (section 4.2), which are not in the provided sources. Program
position of one caller running the critical section of
applicationOAuth2PermissionResourceCreateUpdate for one permission: acquire
the lock, fetch the parent collection, reconcile with
graph.OAuth2PermissionAdd, patch the collection back, release the lock. The
fetched and the reconciled collection values are carried in the phase. -/
inductive Phase where
  | ready
  | locked
  | fetched (localPerms : List OAuth2Permission)
  | reconciled (newPerms : List OAuth2Permission)
  | patched
  | finished
  | reconcileFailed
  | finishedWithError
deriving DecidableEq

/-- Whether a caller in this phase is inside the region that holds the named
lock (between a successful acquire and the deferred release). -/
def Phase.insideLock : Phase → Bool
  | .ready => false
  | .locked => true
  | .fetched _ => true
  | .reconciled _ => true
  | .patched => true
  | .finished => false
  | .reconcileFailed => true
  | .finishedWithError => false

/-- Whether a caller in this phase has already committed its writeback. -/
def Phase.hasWritten : Phase → Bool
  | .ready => false
  | .locked => false
  | .fetched _ => false
  | .reconciled _ => false
  | .patched => true
  | .finished => true
  | .reconcileFailed => false
  | .finishedWithError => false

/-- State of two concurrent callers A and B mutating the same parent: who
holds the single named lock for the parent key (none when free), the remote
collection value of the parent, and each caller's position. -/
structure ConcState where
  lockHeld : Option Bool
  store : List OAuth2Permission
  phaseA : Phase
  phaseB : Phase
deriving DecidableEq

/-- The phase of the chosen caller (false selects A, true selects B). -/
def phaseOf (t : Bool) (s : ConcState) : Phase :=
  match t with
  | false => s.phaseA
  | true => s.phaseB

/-- Replaces the phase of the chosen caller. -/
def setPhase (t : Bool) (ph : Phase) (s : ConcState) : ConcState :=
  match t with
  | false => { s with phaseA := ph }
  | true => { s with phaseB := ph }

/-- One atomic step of caller t adding the permission prm: acquire blocks
(the step is not enabled) while the lock is held by anyone; fetch reads the
store; reconcile runs graph.OAuth2PermissionAdd on the fetched value; patch
writes the reconciled value to the store unconditionally, as client.Patch
does; release frees the lock. The deferred release also runs on the
reconcile-error path. -/
def stepThread (prm : OAuth2Permission) (t : Bool) (s : ConcState) : Option ConcState :=
  match phaseOf t s with
  | .ready =>
    if s.lockHeld = none then some (setPhase t .locked { s with lockHeld := some t })
    else none
  | .locked => some (setPhase t (.fetched s.store) s)
  | .fetched l =>
    match OAuth2PermissionAdd l prm with
    | .ok r => some (setPhase t (.reconciled r) s)
    | .error _ => some (setPhase t .reconcileFailed s)
  | .reconciled r => some (setPhase t .patched { s with store := r })
  | .patched => some (setPhase t .finished { s with lockHeld := none })
  | .finished => none
  | .reconcileFailed => some (setPhase t .finishedWithError { s with lockHeld := none })
  | .finishedWithError => none

/-- Runs a schedule, a list of caller choices; caller A (false) adds permA
and caller B (true) adds permB. A schedule that picks a caller whose next
step is not enabled is rejected. -/
def runSchedule (permA permB : OAuth2Permission) : List Bool → ConcState → Option ConcState
  | [], s => some s
  | t :: ts, s =>
    match stepThread (if t then permB else permA) t s with
    | some s2 => runSchedule permA permB ts s2
    | none => none

/-- The initial state: lock free, remote collection c0, both callers about to
start. -/
def initState (c0 : List OAuth2Permission) : ConcState :=
  ⟨none, c0, .ready, .ready⟩

/-- The collection values the store can hold, given which callers have
committed their writeback. -/
def storeTail (x y : OAuth2Permission) : Bool → Bool → List OAuth2Permission → Prop
  | false, false, l => l = []
  | true, false, l => l = [x]
  | false, true, l => l = [y]
  | true, true, l => l = [x, y] ∨ l = [y, x]

/-- The inductive invariant of the two-caller system: lock ownership matches
the phases, the store is the initial collection followed by the committed
additions, a caller that has fetched holds the current store, a caller that
has reconciled holds the current store extended by its own permission, and
no reconcile has failed. -/
structure ConcInv (c0 : List OAuth2Permission) (x y : OAuth2Permission)
    (s : ConcState) : Prop where
  lockA : s.lockHeld = some false ↔ s.phaseA.insideLock = true
  lockB : s.lockHeld = some true ↔ s.phaseB.insideLock = true
  storeOk : ∃ tail, s.store = c0 ++ tail ∧
    storeTail x y s.phaseA.hasWritten s.phaseB.hasWritten tail
  fetchedA : ∀ l, s.phaseA = .fetched l → l = s.store
  fetchedB : ∀ l, s.phaseB = .fetched l → l = s.store
  reconciledA : ∀ r, s.phaseA = .reconciled r → r = s.store ++ [x]
  reconciledB : ∀ r, s.phaseB = .reconciled r → r = s.store ++ [y]
  noFailA : s.phaseA ≠ .reconcileFailed ∧ s.phaseA ≠ .finishedWithError
  noFailB : s.phaseB ≠ .reconcileFailed ∧ s.phaseB ≠ .finishedWithError

end lockmodel

/-- A concrete permission used to instantiate the theorems. -/
def permX : OAuth2Permission :=
  ⟨"descX", "nameX", "pid-x", true, "User", "udescX", "unameX", "valX"⟩

/-- A second concrete permission with a different id. -/
def permY : OAuth2Permission :=
  ⟨"descY", "nameY", "pid-y", true, "Admin", "udescY", "unameY", "valY"⟩

/-- A concrete permission whose id matches the sub-resource id of
sampleRid. -/
def samplePerm : OAuth2Permission :=
  ⟨"desc", "name", "perm1", true, "User", "udesc", "uname", "val"⟩

/-- A concrete composite id string that parses into app1 and perm1. -/
def sampleRid : String := "app1/perm1"

/-- The schedule that runs caller A to completion and then caller B. -/
def schedAB : List Bool :=
  [false, false, false, false, false, true, true, true, true, true]

end AzureAD

/-! Theorems. -/

namespace AzureAD

namespace graph

theorem splitOnChar_ne_nil (d : Char) (l : List Char) : splitOnChar d l ≠ [] := by
  cases l with
  | nil => simp [splitOnChar]
  | cons c cs =>
    simp only [splitOnChar]
    match h : splitOnChar d cs with
    | [] => simp
    | p :: ps =>
      by_cases hc : c = d <;> simp [hc]

theorem splitOnChar_of_not_mem (d : Char) (l : List Char) (h : d ∉ l) :
    splitOnChar d l = [l] := by
  induction l with
  | nil => rfl
  | cons c cs ih =>
    have hc : c ≠ d := fun hcd => h (by simp [hcd])
    have hcs : d ∉ cs := fun hm => h (List.mem_cons_of_mem _ hm)
    simp only [splitOnChar, ih hcs]
    simp [hc]

theorem splitOnChar_append (d : Char) (p s : List Char) (hp : d ∉ p) (hs : d ∉ s) :
    splitOnChar d (p ++ d :: s) = [p, s] := by
  induction p with
  | nil => simp [splitOnChar, splitOnChar_of_not_mem d s hs]
  | cons c cs ih =>
    have hc : c ≠ d := fun hcd => hp (by simp [hcd])
    have hcs : d ∉ cs := fun hm => hp (List.mem_cons_of_mem _ hm)
    rw [List.cons_append, splitOnChar, ih hcs]
    simp [hc]

/-- Round trip of the composite identifier for components that are non-empty
and delimiter-free. -/
theorem parse_idString (objectId permissionId : String)
    (ho : objectId.toList ≠ []) (hp : permissionId.toList ≠ [])
    (ho2 : ('/' : Char) ∉ objectId.toList) (hp2 : ('/' : Char) ∉ permissionId.toList) :
    ParseOAuth2PermissionId (OAuth2PermissionIdFrom objectId permissionId).idString =
      .ok (OAuth2PermissionIdFrom objectId permissionId) := by
  have hlist : (OAuth2PermissionIdFrom objectId permissionId).idString.toList
      = objectId.toList ++ '/' :: permissionId.toList := by
    simp [OAuth2PermissionId.idString, OAuth2PermissionIdFrom, String.toList]
  simp only [ParseOAuth2PermissionId, hlist,
    splitOnChar_append '/' _ _ ho2 hp2]
  simp only [ho, hp, or_self, if_false]
  simp [OAuth2PermissionIdFrom, String.toList]

end graph

namespace lockmodel

open graph

/-- A caller outside the locked region is in one of the three resting
phases. -/
theorem Phase.not_insideLock {ph : Phase} (h : ph.insideLock = false) :
    ph = .ready ∨ ph = .finished ∨ ph = .finishedWithError := by
  cases ph <;> simp_all [Phase.insideLock]

theorem stepA_preserves
    {c0 : List OAuth2Permission} {x y : OAuth2Permission}
    (hxc : ∀ q ∈ c0, q.id ≠ x.id) (hxy : x.id ≠ y.id)
    {s s2 : ConcState}
    (hinv : ConcInv c0 x y s)
    (hstep : stepThread x false s = some s2) :
    ConcInv c0 x y s2 := by
  obtain ⟨lockA, lockB, ⟨tail, hst, htail⟩, fetchedA, fetchedB, reconciledA, reconciledB,
    noFailA, noFailB⟩ := hinv
  unfold stepThread at hstep
  simp only [phaseOf] at hstep
  cases hph : s.phaseA with
  | ready =>
    rw [hph] at hstep htail
    by_cases hl : s.lockHeld = none
    · rw [if_pos hl] at hstep
      obtain rfl := Option.some.inj hstep
      have hbout : s.phaseB.insideLock = false := by
        cases hpb : s.phaseB.insideLock
        · rfl
        · have h2 := lockB.mpr hpb
          rw [hl] at h2
          exact Option.noConfusion h2
      refine ⟨?_, ?_, ⟨tail, ?_, ?_⟩, ?_, ?_, ?_, ?_, ?_, ?_⟩
      · simp [setPhase, Phase.insideLock]
      · simp only [setPhase]
        rw [hbout]
        simp
      · simpa [setPhase] using hst
      · simpa [setPhase, Phase.hasWritten] using htail
      · intro l h2
        simp [setPhase] at h2
      · intro l h2
        simp only [setPhase] at h2 ⊢
        exact fetchedB l h2
      · intro r h2
        simp [setPhase] at h2
      · intro r h2
        simp only [setPhase] at h2 ⊢
        exact reconciledB r h2
      · simp [setPhase]
      · simpa [setPhase] using noFailB
    · rw [if_neg hl] at hstep
      exact Option.noConfusion hstep
  | locked =>
    rw [hph] at hstep htail
    obtain rfl := Option.some.inj hstep
    have hlock : s.lockHeld = some false := lockA.mpr (by rw [hph]; rfl)
    refine ⟨?_, ?_, ⟨tail, ?_, ?_⟩, ?_, ?_, ?_, ?_, ?_, ?_⟩
    · simp [setPhase, Phase.insideLock, hlock]
    · simp only [setPhase]
      exact lockB
    · simpa [setPhase] using hst
    · simpa [setPhase, Phase.hasWritten] using htail
    · intro l h2
      simp only [setPhase, Phase.fetched.injEq] at h2 ⊢
      exact h2.symm
    · intro l h2
      simp only [setPhase] at h2 ⊢
      exact fetchedB l h2
    · intro r h2
      simp [setPhase] at h2
    · intro r h2
      simp only [setPhase] at h2 ⊢
      exact reconciledB r h2
    · simp [setPhase]
    · simpa [setPhase] using noFailB
  | fetched l =>
    rw [hph] at hstep htail
    have hwf : (Phase.fetched l).hasWritten = false := rfl
    rw [hwf] at htail
    have hls : l = s.store := fetchedA l hph
    have hlock : s.lockHeld = some false := lockA.mpr (by rw [hph]; rfl)
    have hbout : s.phaseB.insideLock = false := by
      cases hpb : s.phaseB.insideLock
      · rfl
      · have h2 := lockB.mpr hpb
        rw [hlock] at h2
        simp at h2
    have hnomem : (s.store.any (fun q => q.id = x.id)) = false := by
      rw [hst, List.any_eq_false]
      intro q hq
      simp only [decide_eq_true_eq]
      rcases List.mem_append.mp hq with hq0 | hqt
      · exact hxc q hq0
      · cases hwb : s.phaseB.hasWritten <;> rw [hwb] at htail <;>
          simp only [storeTail] at htail <;> subst htail
        · simp at hqt
        · have hqy : q = y := by simpa using hqt
          subst hqy
          exact fun h2 => hxy h2.symm
    have hadd : OAuth2PermissionAdd s.store x = .ok (s.store ++ [x]) := by
      simp [OAuth2PermissionAdd, hnomem]
    have hstep2 : (match OAuth2PermissionAdd l x with
        | .ok r => some (setPhase false (Phase.reconciled r) s)
        | .error _ => some (setPhase false Phase.reconcileFailed s)) = some s2 := hstep
    rw [hls, hadd] at hstep2
    obtain rfl := Option.some.inj hstep2
    refine ⟨?_, ?_, ⟨tail, ?_, ?_⟩, ?_, ?_, ?_, ?_, ?_, ?_⟩
    · simp [setPhase, Phase.insideLock, hlock]
    · simp only [setPhase]
      exact lockB
    · simpa [setPhase] using hst
    · simpa [setPhase, Phase.hasWritten] using htail
    · intro l2 h2
      simp [setPhase] at h2
    · intro l2 h2
      simp only [setPhase] at h2 ⊢
      exact fetchedB l2 h2
    · intro r h2
      simp only [setPhase, Phase.reconciled.injEq] at h2 ⊢
      exact h2.symm
    · intro r h2
      simp only [setPhase] at h2 ⊢
      exact reconciledB r h2
    · simp [setPhase]
    · simpa [setPhase] using noFailB
  | reconciled r =>
    rw [hph] at hstep htail
    have hwr : (Phase.reconciled r).hasWritten = false := rfl
    rw [hwr] at htail
    obtain rfl := Option.some.inj hstep
    have hr : r = s.store ++ [x] := reconciledA r hph
    have hlock : s.lockHeld = some false := lockA.mpr (by rw [hph]; rfl)
    have hbout : s.phaseB.insideLock = false := by
      cases hpb : s.phaseB.insideLock
      · rfl
      · have h2 := lockB.mpr hpb
        rw [hlock] at h2
        simp at h2
    have hbrest := Phase.not_insideLock hbout
    refine ⟨?_, ?_, ?_, ?_, ?_, ?_, ?_, ?_, ?_⟩
    · simp [setPhase, Phase.insideLock, hlock]
    · simp only [setPhase]
      simpa [Phase.insideLock, hbout, hlock] using lockB
    · cases hwb : s.phaseB.hasWritten <;> rw [hwb] at htail <;>
        simp only [storeTail] at htail <;> subst htail
      · refine ⟨[x], ?_, ?_⟩
        · simp [setPhase, hr, hst]
        · show storeTail x y true s.phaseB.hasWritten [x]
          rw [hwb]
          simp [storeTail]
      · refine ⟨[y, x], ?_, ?_⟩
        · simp [setPhase, hr, hst]
        · show storeTail x y true s.phaseB.hasWritten [y, x]
          rw [hwb]
          simp [storeTail]
    · intro l2 h2
      simp [setPhase] at h2
    · intro l2 h2
      simp only [setPhase] at h2
      rcases hbrest with h3 | h3 | h3 <;> rw [h3] at h2 <;> exact Phase.noConfusion h2
    · intro r2 h2
      simp [setPhase] at h2
    · intro r2 h2
      simp only [setPhase] at h2
      rcases hbrest with h3 | h3 | h3 <;> rw [h3] at h2 <;> exact Phase.noConfusion h2
    · simp [setPhase]
    · simpa [setPhase] using noFailB
  | patched =>
    rw [hph] at hstep htail
    have hwp : Phase.patched.hasWritten = true := rfl
    rw [hwp] at htail
    obtain rfl := Option.some.inj hstep
    have hlock : s.lockHeld = some false := lockA.mpr (by rw [hph]; rfl)
    have hbout : s.phaseB.insideLock = false := by
      cases hpb : s.phaseB.insideLock
      · rfl
      · have h2 := lockB.mpr hpb
        rw [hlock] at h2
        simp at h2
    refine ⟨?_, ?_, ⟨tail, ?_, ?_⟩, ?_, ?_, ?_, ?_, ?_, ?_⟩
    · simp [setPhase, Phase.insideLock]
    · simp only [setPhase]
      rw [hbout]
      simp
    · simpa [setPhase] using hst
    · simpa [setPhase, Phase.hasWritten] using htail
    · intro l2 h2
      simp [setPhase] at h2
    · intro l2 h2
      simp only [setPhase] at h2 ⊢
      exact fetchedB l2 h2
    · intro r2 h2
      simp [setPhase] at h2
    · intro r2 h2
      simp only [setPhase] at h2 ⊢
      exact reconciledB r2 h2
    · simp [setPhase]
    · simpa [setPhase] using noFailB
  | finished =>
    rw [hph] at hstep
    exact Option.noConfusion hstep
  | reconcileFailed => exact absurd hph noFailA.1
  | finishedWithError => exact absurd hph noFailA.2

theorem stepB_preserves
    {c0 : List OAuth2Permission} {x y : OAuth2Permission}
    (hyc : ∀ q ∈ c0, q.id ≠ y.id) (hxy : x.id ≠ y.id)
    {s s2 : ConcState}
    (hinv : ConcInv c0 x y s)
    (hstep : stepThread y true s = some s2) :
    ConcInv c0 x y s2 := by
  obtain ⟨lockA, lockB, ⟨tail, hst, htail⟩, fetchedA, fetchedB, reconciledA, reconciledB,
    noFailA, noFailB⟩ := hinv
  unfold stepThread at hstep
  simp only [phaseOf] at hstep
  cases hph : s.phaseB with
  | ready =>
    rw [hph] at hstep htail
    by_cases hl : s.lockHeld = none
    · rw [if_pos hl] at hstep
      obtain rfl := Option.some.inj hstep
      have haout : s.phaseA.insideLock = false := by
        cases hpa : s.phaseA.insideLock
        · rfl
        · have h2 := lockA.mpr hpa
          rw [hl] at h2
          exact Option.noConfusion h2
      refine ⟨?_, ?_, ⟨tail, ?_, ?_⟩, ?_, ?_, ?_, ?_, ?_, ?_⟩
      · simp only [setPhase]
        rw [haout]
        simp
      · simp [setPhase, Phase.insideLock]
      · simpa [setPhase] using hst
      · simpa [setPhase, Phase.hasWritten] using htail
      · intro l h2
        simp only [setPhase] at h2 ⊢
        exact fetchedA l h2
      · intro l h2
        simp [setPhase] at h2
      · intro r h2
        simp only [setPhase] at h2 ⊢
        exact reconciledA r h2
      · intro r h2
        simp [setPhase] at h2
      · simpa [setPhase] using noFailA
      · simp [setPhase]
    · rw [if_neg hl] at hstep
      exact Option.noConfusion hstep
  | locked =>
    rw [hph] at hstep htail
    obtain rfl := Option.some.inj hstep
    have hlock : s.lockHeld = some true := lockB.mpr (by rw [hph]; rfl)
    refine ⟨?_, ?_, ⟨tail, ?_, ?_⟩, ?_, ?_, ?_, ?_, ?_, ?_⟩
    · simp only [setPhase]
      exact lockA
    · simp [setPhase, Phase.insideLock, hlock]
    · simpa [setPhase] using hst
    · simpa [setPhase, Phase.hasWritten] using htail
    · intro l h2
      simp only [setPhase] at h2 ⊢
      exact fetchedA l h2
    · intro l h2
      simp only [setPhase, Phase.fetched.injEq] at h2 ⊢
      exact h2.symm
    · intro r h2
      simp only [setPhase] at h2 ⊢
      exact reconciledA r h2
    · intro r h2
      simp [setPhase] at h2
    · simpa [setPhase] using noFailA
    · simp [setPhase]
  | fetched l =>
    rw [hph] at hstep htail
    have hwf : (Phase.fetched l).hasWritten = false := rfl
    rw [hwf] at htail
    have hls : l = s.store := fetchedB l hph
    have hlock : s.lockHeld = some true := lockB.mpr (by rw [hph]; rfl)
    have haout : s.phaseA.insideLock = false := by
      cases hpa : s.phaseA.insideLock
      · rfl
      · have h2 := lockA.mpr hpa
        rw [hlock] at h2
        simp at h2
    have hnomem : (s.store.any (fun q => q.id = y.id)) = false := by
      rw [hst, List.any_eq_false]
      intro q hq
      simp only [decide_eq_true_eq]
      rcases List.mem_append.mp hq with hq0 | hqt
      · exact hyc q hq0
      · cases hwa : s.phaseA.hasWritten <;> rw [hwa] at htail <;>
          simp only [storeTail] at htail <;> subst htail
        · simp at hqt
        · have hqx : q = x := by simpa using hqt
          subst hqx
          exact hxy
    have hadd : OAuth2PermissionAdd s.store y = .ok (s.store ++ [y]) := by
      simp [OAuth2PermissionAdd, hnomem]
    have hstep2 : (match OAuth2PermissionAdd l y with
        | .ok r => some (setPhase true (Phase.reconciled r) s)
        | .error _ => some (setPhase true Phase.reconcileFailed s)) = some s2 := hstep
    rw [hls, hadd] at hstep2
    obtain rfl := Option.some.inj hstep2
    refine ⟨?_, ?_, ⟨tail, ?_, ?_⟩, ?_, ?_, ?_, ?_, ?_, ?_⟩
    · simp only [setPhase]
      exact lockA
    · simp [setPhase, Phase.insideLock, hlock]
    · simpa [setPhase] using hst
    · simpa [setPhase, Phase.hasWritten] using htail
    · intro l2 h2
      simp only [setPhase] at h2 ⊢
      exact fetchedA l2 h2
    · intro l2 h2
      simp [setPhase] at h2
    · intro r h2
      simp only [setPhase] at h2 ⊢
      exact reconciledA r h2
    · intro r h2
      simp only [setPhase, Phase.reconciled.injEq] at h2 ⊢
      exact h2.symm
    · simpa [setPhase] using noFailA
    · simp [setPhase]
  | reconciled r =>
    rw [hph] at hstep htail
    have hwr : (Phase.reconciled r).hasWritten = false := rfl
    rw [hwr] at htail
    obtain rfl := Option.some.inj hstep
    have hr : r = s.store ++ [y] := reconciledB r hph
    have hlock : s.lockHeld = some true := lockB.mpr (by rw [hph]; rfl)
    have haout : s.phaseA.insideLock = false := by
      cases hpa : s.phaseA.insideLock
      · rfl
      · have h2 := lockA.mpr hpa
        rw [hlock] at h2
        simp at h2
    have harest := Phase.not_insideLock haout
    refine ⟨?_, ?_, ?_, ?_, ?_, ?_, ?_, ?_, ?_⟩
    · simp only [setPhase]
      rw [haout]
      simp [hlock]
    · simp [setPhase, Phase.insideLock, hlock]
    · cases hwa : s.phaseA.hasWritten <;> rw [hwa] at htail <;>
        simp only [storeTail] at htail <;> subst htail
      · refine ⟨[y], ?_, ?_⟩
        · simp [setPhase, hr, hst]
        · show storeTail x y s.phaseA.hasWritten true [y]
          rw [hwa]
          simp [storeTail]
      · refine ⟨[x, y], ?_, ?_⟩
        · simp [setPhase, hr, hst]
        · show storeTail x y s.phaseA.hasWritten true [x, y]
          rw [hwa]
          simp [storeTail]
    · intro l2 h2
      simp only [setPhase] at h2
      rcases harest with h3 | h3 | h3 <;> rw [h3] at h2 <;> exact Phase.noConfusion h2
    · intro l2 h2
      simp [setPhase] at h2
    · intro r2 h2
      simp only [setPhase] at h2
      rcases harest with h3 | h3 | h3 <;> rw [h3] at h2 <;> exact Phase.noConfusion h2
    · intro r2 h2
      simp [setPhase] at h2
    · simpa [setPhase] using noFailA
    · simp [setPhase]
  | patched =>
    rw [hph] at hstep htail
    have hwp : Phase.patched.hasWritten = true := rfl
    rw [hwp] at htail
    obtain rfl := Option.some.inj hstep
    have hlock : s.lockHeld = some true := lockB.mpr (by rw [hph]; rfl)
    have haout : s.phaseA.insideLock = false := by
      cases hpa : s.phaseA.insideLock
      · rfl
      · have h2 := lockA.mpr hpa
        rw [hlock] at h2
        simp at h2
    refine ⟨?_, ?_, ⟨tail, ?_, ?_⟩, ?_, ?_, ?_, ?_, ?_, ?_⟩
    · simp only [setPhase]
      rw [haout]
      simp
    · simp [setPhase, Phase.insideLock]
    · simpa [setPhase] using hst
    · simpa [setPhase, Phase.hasWritten] using htail
    · intro l2 h2
      simp only [setPhase] at h2 ⊢
      exact fetchedA l2 h2
    · intro l2 h2
      simp [setPhase] at h2
    · intro r2 h2
      simp only [setPhase] at h2 ⊢
      exact reconciledA r2 h2
    · intro r2 h2
      simp [setPhase] at h2
    · simpa [setPhase] using noFailA
    · simp [setPhase]
  | finished =>
    rw [hph] at hstep
    exact Option.noConfusion hstep
  | reconcileFailed => exact absurd hph noFailB.1
  | finishedWithError => exact absurd hph noFailB.2

/-- The initial state satisfies the invariant. -/
theorem initState_inv (c0 : List OAuth2Permission) (x y : OAuth2Permission) :
    ConcInv c0 x y (initState c0) := by
  refine ⟨?_, ?_, ⟨[], by simp [initState], ?_⟩, ?_, ?_, ?_, ?_, ?_, ?_⟩
  · simp [initState, Phase.insideLock]
  · simp [initState, Phase.insideLock]
  · show storeTail x y false false []
    simp [storeTail]
  · intro l h2
    exact Phase.noConfusion h2
  · intro l h2
    exact Phase.noConfusion h2
  · intro r h2
    exact Phase.noConfusion h2
  · intro r h2
    exact Phase.noConfusion h2
  · exact ⟨fun h2 => Phase.noConfusion h2, fun h2 => Phase.noConfusion h2⟩
  · exact ⟨fun h2 => Phase.noConfusion h2, fun h2 => Phase.noConfusion h2⟩

/-- Running any schedule preserves the invariant. -/
theorem runSchedule_preserves
    {c0 : List OAuth2Permission} {x y : OAuth2Permission}
    (hxc : ∀ q ∈ c0, q.id ≠ x.id) (hyc : ∀ q ∈ c0, q.id ≠ y.id) (hxy : x.id ≠ y.id)
    (sched : List Bool) :
    ∀ {s s2 : ConcState}, ConcInv c0 x y s →
      runSchedule x y sched s = some s2 → ConcInv c0 x y s2 := by
  induction sched with
  | nil =>
    intro s s2 hinv hrun
    rw [runSchedule] at hrun
    obtain rfl := Option.some.inj hrun
    exact hinv
  | cons t ts ih =>
    intro s s2 hinv hrun
    rw [runSchedule] at hrun
    cases hstep : stepThread (if t then y else x) t s with
    | none =>
      rw [hstep] at hrun
      exact Option.noConfusion hrun
    | some s1 =>
      rw [hstep] at hrun
      have hinv1 : ConcInv c0 x y s1 := by
        cases t
        · exact stepA_preserves hxc hxy hinv hstep
        · exact stepB_preserves hyc hxy hinv hstep
      exact ih hinv1 hrun

end lockmodel

namespace msgraph

/-- With ignore missing set, the lookup loop always succeeds and returns
exactly the users that were found. -/
theorem usersLookupLoop_true_ok (lookups : List LookupOutcome) :
    usersLookupLoop true lookups = .ok (foundUsers lookups) := by
  induction lookups with
  | nil => rfl
  | cons o os ih =>
    cases o with
    | lookupError m => simpa [usersLookupLoop, foundUsers] using ih
    | noMatch => simpa [usersLookupLoop, foundUsers] using ih
    | foundUser u => simp [usersLookupLoop, foundUsers, ih, Except.map]

/-- Whenever the lookup loop succeeds, it returns exactly the users that were
found, in order. -/
theorem usersLookupLoop_ok_eq {ign : Bool} {lookups : List LookupOutcome}
    {us : List MsUser} (h : usersLookupLoop ign lookups = .ok us) :
    us = foundUsers lookups := by
  induction lookups generalizing us with
  | nil =>
    rw [usersLookupLoop] at h
    obtain rfl := (Except.ok.inj h).symm
    rfl
  | cons o os ih =>
    cases o with
    | lookupError m =>
      rw [usersLookupLoop] at h
      split at h
      · simpa [foundUsers] using ih h
      · exact Except.noConfusion h
    | noMatch =>
      rw [usersLookupLoop] at h
      split at h
      · simpa [foundUsers] using ih h
      · exact Except.noConfusion h
    | foundUser u =>
      rw [usersLookupLoop] at h
      cases hrec : usersLookupLoop ign os with
      | error e =>
        rw [hrec] at h
        exact Except.noConfusion h
      | ok us2 =>
        rw [hrec] at h
        obtain rfl := (Except.ok.inj h).symm
        simp [foundUsers, ih hrec]

/-- Without ignore missing, any failed or empty lookup makes the loop fail. -/
theorem usersLookupLoop_false_fails (lookups : List LookupOutcome)
    (h : (∃ m, LookupOutcome.lookupError m ∈ lookups) ∨ LookupOutcome.noMatch ∈ lookups) :
    ∃ m2, usersLookupLoop false lookups = .error m2 := by
  induction lookups with
  | nil =>
    rcases h with ⟨m, hm⟩ | hm <;> simp at hm
  | cons o os ih =>
    cases o with
    | lookupError m => exact ⟨m, by simp [usersLookupLoop]⟩
    | noMatch => exact ⟨"no user found", by simp [usersLookupLoop]⟩
    | foundUser u =>
      have h2 : (∃ m, LookupOutcome.lookupError m ∈ os) ∨ LookupOutcome.noMatch ∈ os := by
        rcases h with ⟨m, hm⟩ | hm
        · exact Or.inl ⟨m, by simpa using hm⟩
        · exact Or.inr (by simpa using hm)
      obtain ⟨m2, hm2⟩ := ih h2
      exact ⟨m2, by simp [usersLookupLoop, hm2, Except.map]⟩

/-- Any failed group lookup makes the group loop fail; there is no flag that
can skip it. -/
theorem groupsLookupLoop_fails (gl : List GroupLookupOutcome)
    (h : ∃ m, GroupLookupOutcome.groupLookupError m ∈ gl) :
    ∃ m2, groupsLookupLoop gl = .error m2 := by
  induction gl with
  | nil =>
    obtain ⟨m, hm⟩ := h
    simp at hm
  | cons o os ih =>
    cases o with
    | groupLookupError m => exact ⟨m, by simp [groupsLookupLoop]⟩
    | foundGroup g =>
      have h2 : ∃ m, GroupLookupOutcome.groupLookupError m ∈ os := by
        obtain ⟨m, hm⟩ := h
        exact ⟨m, by simpa using hm⟩
      obtain ⟨m2, hm2⟩ := ih h2
      exact ⟨m2, by simp [groupsLookupLoop, hm2, Except.map]⟩

/-- The result builder can only reach the nil dereference through a user
whose MailNickname is nil. -/
theorem usersBuild_ne_nilDeref {us : List MsUser}
    (h : ∀ u ∈ us, u.mailNickname ≠ none) :
    usersBuild us ≠ .nilDeref := by
  induction us with
  | nil => simp [usersBuild]
  | cons u us2 ih =>
    rw [usersBuild]
    split
    · simp
    · cases hm : u.mailNickname with
      | none => exact absurd hm (h u (List.mem_cons_self u us2))
      | some v =>
        cases hb : usersBuild us2 with
        | ok rest => simp
        | readError m => simp
        | nilDeref =>
          exact absurd hb (ih (fun w hw => h w (List.mem_cons_of_mem _ hw)))

/-- Membership in the found users comes from a successful lookup outcome. -/
theorem mem_foundUsers {u : MsUser} {lookups : List LookupOutcome}
    (h : u ∈ foundUsers lookups) : LookupOutcome.foundUser u ∈ lookups := by
  unfold foundUsers at h
  rw [List.mem_filterMap] at h
  obtain ⟨o, ho, heq⟩ := h
  cases o with
  | lookupError m => simp at heq
  | noMatch => simp at heq
  | foundUser u2 =>
    simp only [Option.some.injEq] at heq
    subst heq
    exact ho

end msgraph

open graph aadgraph msgraph lockmodel

/-- C9 counterexample: the pair with parentId a/b and subId c is non-empty in
both components, yet parsing the formatted string does not return the
original pair, because the delimiter-joined encoding is ambiguous. -/
theorem claim_C9_counterexample :
    ParseOAuth2PermissionId (OAuth2PermissionIdFrom "a/b" "c").idString ≠
      Except.ok (OAuth2PermissionIdFrom "a/b" "c") ∧
    "a/b" ≠ "" ∧ "c" ≠ "" := by decide

/-- C9 (amended): for all pairs whose components are non-empty and contain no
delimiter character, parsing the string produced by formatting the pair
returns the original pair unchanged. -/
theorem claim_C9_round_trip (objectId permissionId : String)
    (ho : objectId.toList ≠ []) (hp : permissionId.toList ≠ [])
    (ho2 : ('/' : Char) ∉ objectId.toList) (hp2 : ('/' : Char) ∉ permissionId.toList) :
    ParseOAuth2PermissionId (OAuth2PermissionIdFrom objectId permissionId).idString =
      .ok (OAuth2PermissionIdFrom objectId permissionId) :=
  parse_idString objectId permissionId ho hp ho2 hp2

/-- C9 witness: the round trip at the concrete pair app1, perm1. -/
theorem claim_C9_witness :
    ParseOAuth2PermissionId (OAuth2PermissionIdFrom "app1" "perm1").idString =
      .ok (OAuth2PermissionIdFrom "app1" "perm1") :=
  claim_C9_round_trip "app1" "perm1" (by decide) (by decide) (by decide) (by decide)

/-- C6: when the parent application is missing, or the permission is absent
from its collection, the read returns success and clears the tracked
identity rather than failing. -/
theorem claim_C6_read_absence_clears_state
    (rid : String) (i : OAuth2PermissionId) (perms : List OAuth2Permission)
    (hparse : ParseOAuth2PermissionId rid = .ok i) :
    (applicationOAuth2PermissionResourceRead rid .notFound).1 = ⟨.ok (), "", none⟩ ∧
    (OAuth2PermissionFindById perms i.permissionId = none →
      (applicationOAuth2PermissionResourceRead rid (.found perms)).1 = ⟨.ok (), "", none⟩) := by
  constructor
  · simp only [applicationOAuth2PermissionResourceRead, hparse]
  · intro hfind
    simp only [applicationOAuth2PermissionResourceRead, hparse, hfind]

/-- C6 witness: the read at the concrete id app1/perm1 against an empty
collection. -/
theorem claim_C6_witness :
    (applicationOAuth2PermissionResourceRead sampleRid .notFound).1 = ⟨.ok (), "", none⟩ ∧
    (OAuth2PermissionFindById [] (⟨"app1", "perm1"⟩ : OAuth2PermissionId).permissionId = none →
      (applicationOAuth2PermissionResourceRead sampleRid (.found [])).1 = ⟨.ok (), "", none⟩) :=
  claim_C6_read_absence_clears_state sampleRid ⟨"app1", "perm1"⟩ [] (by decide)

/-- C5: an update of a permission whose id is absent from the parent
collection fails and no writeback is attempted. -/
theorem claim_C5_update_absent_no_writeback
    (input : CreateUpdateInput) (perms : List OAuth2Permission) (patch : PatchResult)
    (hnew : input.isNewResource = false)
    (habsent : OAuth2PermissionFindById perms input.permission.id = none) :
    (applicationOAuth2PermissionResourceCreateUpdate input (.found perms) patch).1 =
      .error (.opError "OAuth2 Permission was not found for Application") ∧
    patchesOf (applicationOAuth2PermissionResourceCreateUpdate input (.found perms) patch).2 = [] := by
  constructor <;>
    simp [applicationOAuth2PermissionResourceCreateUpdate, OAuth2PermissionIdFrom, hnew,
      habsent, patchesOf]

/-- C5 witness: the update at a concrete input whose permission id is absent
from the parent collection. -/
theorem claim_C5_witness :
    (applicationOAuth2PermissionResourceCreateUpdate ⟨"app1", samplePerm, false⟩ (.found []) .ok).1 =
      .error (.opError "OAuth2 Permission was not found for Application") ∧
    patchesOf (applicationOAuth2PermissionResourceCreateUpdate ⟨"app1", samplePerm, false⟩
      (.found []) .ok).2 = [] :=
  claim_C5_update_absent_no_writeback ⟨"app1", samplePerm, false⟩ [] .ok (by decide) (by decide)

/-- C7: a create of a permission whose id is already present returns the
distinct import-collision signal and performs no writeback, leaving the
existing entry untouched. -/
theorem claim_C7_create_duplicate_import_collision
    (input : CreateUpdateInput) (perms : List OAuth2Permission) (patch : PatchResult)
    (hnew : input.isNewResource = true)
    (hdup : perms.any (fun q => q.id = input.permission.id) = true) :
    (applicationOAuth2PermissionResourceCreateUpdate input (.found perms) patch).1 =
      .error (.importAsExists "azuread_application_oauth2_permission"
        (OAuth2PermissionIdFrom input.objectId input.permission.id).idString) ∧
    patchesOf (applicationOAuth2PermissionResourceCreateUpdate input (.found perms) patch).2 = [] := by
  have hadd : OAuth2PermissionAdd perms input.permission =
      .error (.alreadyExists input.permission.id) := by
    simp [OAuth2PermissionAdd, hdup]
  constructor <;>
    simp [applicationOAuth2PermissionResourceCreateUpdate, OAuth2PermissionIdFrom, hnew,
      hadd, patchesOf]

/-- C7 witness: the create at a concrete input whose permission id is already
present in the parent collection. -/
theorem claim_C7_witness :
    (applicationOAuth2PermissionResourceCreateUpdate ⟨"app1", samplePerm, true⟩
      (.found [samplePerm]) .ok).1 =
      .error (.importAsExists "azuread_application_oauth2_permission"
        (OAuth2PermissionIdFrom "app1" samplePerm.id).idString) ∧
    patchesOf (applicationOAuth2PermissionResourceCreateUpdate ⟨"app1", samplePerm, true⟩
      (.found [samplePerm]) .ok).2 = [] :=
  claim_C7_create_duplicate_import_collision ⟨"app1", samplePerm, true⟩ [samplePerm] .ok
    (by decide) (by decide)

/-- C4 counterexample: when the fetch reports the parent missing, the delete
operation returns success, not a ParentNotFound error. -/
theorem claim_C4_counterexample :
    (applicationOAuth2PermissionResourceDelete sampleRid .notFound .ok .ok).1 =
      Except.ok () := by decide

/-- C4 (amended): when the fetch reports the parent missing, create and
update return a parent-not-found error, while delete returns success treating
the resource as already gone; in all cases no reconciler is invoked and no
remote write is attempted. -/
theorem claim_C4_parent_missing_no_reconcile_no_write
    (input : CreateUpdateInput) (patch : PatchResult)
    (rid : String) (i : OAuth2PermissionId) (p1 p2 : PatchResult)
    (hparse : ParseOAuth2PermissionId rid = .ok i) :
    (applicationOAuth2PermissionResourceCreateUpdate input .notFound patch).1 =
      .error (.appNotFound input.objectId) ∧
    ((applicationOAuth2PermissionResourceCreateUpdate input .notFound patch).2.countP
      (fun e => e.isPatch || e.isReconcile)) = 0 ∧
    (applicationOAuth2PermissionResourceDelete rid .notFound p1 p2).1 = .ok () ∧
    ((applicationOAuth2PermissionResourceDelete rid .notFound p1 p2).2.countP
      (fun e => e.isPatch || e.isReconcile)) = 0 := by
  refine ⟨rfl, rfl, ?_, ?_⟩ <;>
    simp [applicationOAuth2PermissionResourceDelete, hparse, RemoteEvent.isPatch,
      RemoteEvent.isReconcile, RemoteEvent.isLock, RemoteEvent.isUnlock, List.countP_cons]

/-- C4 witness: the amended behaviour at concrete inputs. -/
theorem claim_C4_witness :
    (applicationOAuth2PermissionResourceCreateUpdate ⟨"app1", samplePerm, true⟩ .notFound .ok).1 =
      .error (.appNotFound "app1") ∧
    ((applicationOAuth2PermissionResourceCreateUpdate ⟨"app1", samplePerm, true⟩ .notFound .ok).2.countP
      (fun e => e.isPatch || e.isReconcile)) = 0 ∧
    (applicationOAuth2PermissionResourceDelete sampleRid .notFound .ok .ok).1 = .ok () ∧
    ((applicationOAuth2PermissionResourceDelete sampleRid .notFound .ok .ok).2.countP
      (fun e => e.isPatch || e.isReconcile)) = 0 :=
  claim_C4_parent_missing_no_reconcile_no_write ⟨"app1", samplePerm, true⟩ .ok sampleRid
    ⟨"app1", "perm1"⟩ .ok .ok (by decide)

/-- C2 counterexample: a successful delete emits exactly one lock acquisition
and one release while committing two writebacks, so the two phases are not
each independently locked as the claim states. -/
theorem claim_C2_counterexample :
    ((applicationOAuth2PermissionResourceDelete sampleRid (.found [samplePerm]) .ok .ok).2.countP
      (fun e => e.isLock)) = 1 ∧
    ((applicationOAuth2PermissionResourceDelete sampleRid (.found [samplePerm]) .ok .ok).2.countP
      (fun e => e.isUnlock)) = 1 ∧
    ((applicationOAuth2PermissionResourceDelete sampleRid (.found [samplePerm]) .ok .ok).2.countP
      (fun e => e.isPatch)) = 2 := by decide

/-- C2 (amended): the delete operation performs its two phases as two
sequential writebacks, disable first and then remove, both committed under a
single named-lock acquisition that is taken once before the disable phase and
released once after the remove phase, with no unlock window between the two
commits. -/
theorem claim_C2_delete_two_patches_single_lock
    (rid : String) (i : OAuth2PermissionId) (perms d r : List OAuth2Permission)
    (hparse : ParseOAuth2PermissionId rid = .ok i)
    (hdis : OAuth2PermissionResultDisableById perms i.permissionId = .ok d)
    (hrem : OAuth2PermissionResultRemoveById perms i.permissionId = .ok r) :
    applicationOAuth2PermissionResourceDelete rid (.found perms) .ok .ok =
      (.ok (), [.lockByName resourceApplicationName i.objectId, .get i.objectId,
        .reconcile "disable", .patch i.objectId d, .reconcile "remove",
        .patch i.objectId r,
        .unlockByName resourceApplicationName i.objectId]) := by
  simp [applicationOAuth2PermissionResourceDelete, hparse, hdis, hrem]

/-- C2 witness: the amended trace shape at a concrete delete. -/
theorem claim_C2_witness :
    applicationOAuth2PermissionResourceDelete sampleRid (.found [samplePerm]) .ok .ok =
      (.ok (), [.lockByName resourceApplicationName "app1", .get "app1",
        .reconcile "disable", .patch "app1" [{ samplePerm with isEnabled := false }],
        .reconcile "remove", .patch "app1" [],
        .unlockByName resourceApplicationName "app1"]) :=
  claim_C2_delete_two_patches_single_lock sampleRid ⟨"app1", "perm1"⟩ [samplePerm]
    [{ samplePerm with isEnabled := false }] [] (by decide) (by decide) (by decide)

/-- C3: in every delete execution the disable writeback is committed before
the remove writeback is attempted: when the disable patch fails at most one
writeback ever happens, and a trace with two writebacks can only arise from a
successful disable patch, its first writeback being the disabled collection
and its second the removed collection, both computed from the fetched
parent. -/
theorem claim_C3_disable_committed_before_remove
    (rid : String) (i : OAuth2PermissionId) (fetch : FetchResult) (p1 p2 : PatchResult)
    (hparse : ParseOAuth2PermissionId rid = .ok i) :
    (∀ m, p1 = .patchError m →
      (patchesOf (applicationOAuth2PermissionResourceDelete rid fetch p1 p2).2).length ≤ 1) ∧
    (∀ d r, patchesOf (applicationOAuth2PermissionResourceDelete rid fetch p1 p2).2 = [d, r] →
      p1 = .ok ∧ ∃ perms, fetch = .found perms ∧
        OAuth2PermissionResultDisableById perms i.permissionId = .ok d ∧
        OAuth2PermissionResultRemoveById perms i.permissionId = .ok r) := by
  cases fetch with
  | notFound =>
    constructor
    · intro m hm
      simp [applicationOAuth2PermissionResourceDelete, hparse, patchesOf]
    · intro d r h
      simp [applicationOAuth2PermissionResourceDelete, hparse, patchesOf] at h
  | fetchError m2 =>
    constructor
    · intro m hm
      simp [applicationOAuth2PermissionResourceDelete, hparse, patchesOf]
    · intro d r h
      simp [applicationOAuth2PermissionResourceDelete, hparse, patchesOf] at h
  | found perms =>
    cases hdis : OAuth2PermissionResultDisableById perms i.permissionId with
    | error e =>
      constructor
      · intro m hm
        simp [applicationOAuth2PermissionResourceDelete, hparse, hdis, patchesOf]
      · intro d r h
        simp [applicationOAuth2PermissionResourceDelete, hparse, hdis, patchesOf] at h
    | ok dd =>
      cases p1 with
      | patchError m =>
        constructor
        · intro m2 hm
          simp [applicationOAuth2PermissionResourceDelete, hparse, hdis, patchesOf]
        · intro d r h
          simp [applicationOAuth2PermissionResourceDelete, hparse, hdis, patchesOf] at h
      | ok =>
        constructor
        · intro m hm
          exact PatchResult.noConfusion hm
        · intro d r h
          cases hrem : OAuth2PermissionResultRemoveById perms i.permissionId with
          | error e =>
            simp [applicationOAuth2PermissionResourceDelete, hparse, hdis, hrem,
              patchesOf] at h
          | ok rr =>
            cases p2 with
            | patchError m =>
              simp [applicationOAuth2PermissionResourceDelete, hparse, hdis, hrem,
                patchesOf] at h
              obtain ⟨h1, h2⟩ := h
              subst h1
              subst h2
              exact ⟨rfl, perms, rfl, hdis, hrem⟩
            | ok =>
              simp [applicationOAuth2PermissionResourceDelete, hparse, hdis, hrem,
                patchesOf] at h
              obtain ⟨h1, h2⟩ := h
              subst h1
              subst h2
              exact ⟨rfl, perms, rfl, hdis, hrem⟩

/-- C3 witness: the ordering statement at a concrete successful delete. -/
theorem claim_C3_witness :
    (∀ m, PatchResult.ok = PatchResult.patchError m →
      (patchesOf (applicationOAuth2PermissionResourceDelete sampleRid
        (.found [samplePerm]) .ok .ok).2).length ≤ 1) ∧
    (∀ d r, patchesOf (applicationOAuth2PermissionResourceDelete sampleRid
        (.found [samplePerm]) .ok .ok).2 = [d, r] →
      PatchResult.ok = PatchResult.ok ∧ ∃ perms,
        FetchResult.found [samplePerm] = .found perms ∧
        OAuth2PermissionResultDisableById perms
          (⟨"app1", "perm1"⟩ : OAuth2PermissionId).permissionId = .ok d ∧
        OAuth2PermissionResultRemoveById perms
          (⟨"app1", "perm1"⟩ : OAuth2PermissionId).permissionId = .ok r) :=
  claim_C3_disable_committed_before_remove sampleRid ⟨"app1", "perm1"⟩
    (.found [samplePerm]) .ok .ok (by decide)

/-- C8: with ignore missing set, every failed or empty lookup is skipped and
the count check is bypassed, so the users read proceeds with exactly the
users found; without it, any failed lookup or any count mismatch is an error.
The groups read has no such flag: any failed lookup and any count mismatch is
always fatal. -/
theorem claim_C8_ignore_missing_flag :
    (∀ lookups : List LookupOutcome,
      usersDataRead true lookups = usersBuild (foundUsers lookups)) ∧
    (∀ lookups : List LookupOutcome,
      ((∃ m, LookupOutcome.lookupError m ∈ lookups) ∨ LookupOutcome.noMatch ∈ lookups) →
      ∃ m2, usersDataRead false lookups = .readError m2) ∧
    (∀ (lookups : List LookupOutcome) (us : List MsUser),
      usersLookupLoop false lookups = .ok us → us.length ≠ lookups.length →
      ∃ m2, usersDataRead false lookups = .readError m2) ∧
    (∀ gl : List GroupLookupOutcome,
      (∃ m, GroupLookupOutcome.groupLookupError m ∈ gl) →
      ∃ m2, GroupsDataRead gl = .readError m2) ∧
    (∀ (gl : List GroupLookupOutcome) (gs : List ADGroup),
      groupsLookupLoop gl = .ok gs → gs.length ≠ gl.length →
      ∃ m2, GroupsDataRead gl = .readError m2) := by
  refine ⟨?_, ?_, ?_, ?_, ?_⟩
  · intro lookups
    simp [usersDataRead, usersLookupLoop_true_ok]
  · intro lookups h
    obtain ⟨m2, hm2⟩ := usersLookupLoop_false_fails lookups h
    exact ⟨m2, by simp [usersDataRead, hm2]⟩
  · intro lookups us hloop hlen
    refine ⟨"unexpected number of users returned", ?_⟩
    simp [usersDataRead, hloop, hlen]
  · intro gl h
    obtain ⟨m2, hm2⟩ := groupsLookupLoop_fails gl h
    exact ⟨m2, by simp [GroupsDataRead, hm2]⟩
  · intro gl gs hloop hlen
    refine ⟨"Unexpected number of groups returned", ?_⟩
    simp [GroupsDataRead, hloop, hlen]

/-- C8 witness: the flag behaviour at concrete lookup outcomes. -/
theorem claim_C8_witness :
    usersDataRead true [LookupOutcome.lookupError "boom"] = usersBuild [] ∧
    (∃ m2, usersDataRead false [LookupOutcome.lookupError "boom"] = .readError m2) ∧
    (∃ m2, GroupsDataRead [GroupLookupOutcome.groupLookupError "boom"] = .readError m2) :=
  ⟨claim_C8_ignore_missing_flag.1 [LookupOutcome.lookupError "boom"],
   claim_C8_ignore_missing_flag.2.1 [LookupOutcome.lookupError "boom"]
     (Or.inl ⟨"boom", by simp⟩),
   claim_C8_ignore_missing_flag.2.2.2.1 [GroupLookupOutcome.groupLookupError "boom"]
     ⟨"boom", by simp⟩⟩

/-- C10: the build loop of the users read guards only the ID and the
UserPrincipalName, so the read never reaches the nil dereference exactly when
every found user has a MailNickname; a response containing a user with ID and
UserPrincipalName set but MailNickname nil drives the read into the nil
dereference of the original program. -/
theorem claim_C10_mailNickname_unguarded :
    (∀ (ign : Bool) (lookups : List LookupOutcome),
      (∀ u, LookupOutcome.foundUser u ∈ lookups → u.mailNickname ≠ none) →
      usersDataRead ign lookups ≠ .nilDeref) ∧
    usersDataRead false
      [LookupOutcome.foundUser
        ⟨some "oid", some "upn", none, none, none, none, none, none, none, none⟩] =
      .nilDeref := by
  constructor
  · intro ign lookups hnn
    unfold usersDataRead
    cases hloop : usersLookupLoop ign lookups with
    | error m =>
      simp
    | ok us =>
      obtain rfl := usersLookupLoop_ok_eq hloop
      show (if ¬ign = true ∧ (foundUsers lookups).length ≠ lookups.length then
          UsersReadOutcome.readError "unexpected number of users returned"
        else usersBuild (foundUsers lookups)) ≠ .nilDeref
      split
      · simp
      · exact usersBuild_ne_nilDeref (fun u hu => hnn u (mem_foundUsers hu))
  · decide

/-- C10 witness: the guarded direction at a concrete response with no
users. -/
theorem claim_C10_witness :
    usersDataRead false [] ≠ UsersReadOutcome.nilDeref :=
  claim_C10_mailNickname_unguarded.1 false [] (fun u hu => absurd hu (by simp))

/-- C1: two concurrent mutate operations on the same parent application that
add permissions with distinct fresh ids serialize on the same named lock, and
every complete interleaving of their steps leaves the parent collection
containing both additions: no lost update. -/
theorem claim_C1_concurrent_adds_no_lost_update
    (c0 : List OAuth2Permission) (x y : OAuth2Permission) (sched : List Bool)
    (s : ConcState)
    (hxc : ∀ q ∈ c0, q.id ≠ x.id) (hyc : ∀ q ∈ c0, q.id ≠ y.id) (hxy : x.id ≠ y.id)
    (hrun : runSchedule x y sched (initState c0) = some s)
    (hA : s.phaseA = .finished) (hB : s.phaseB = .finished) :
    x ∈ s.store ∧ y ∈ s.store := by
  obtain ⟨_, _, ⟨tail, hst, htail⟩, _, _, _, _, _, _⟩ :=
    runSchedule_preserves hxc hyc hxy sched (initState_inv c0 x y) hrun
  rw [hA, hB] at htail
  have hw : Phase.finished.hasWritten = true := rfl
  rw [hw] at htail
  simp only [storeTail] at htail
  rcases htail with h | h <;> subst h <;> rw [hst] <;> simp

/-- C1 witness: a complete concrete interleaving of the two callers on an
initially empty collection ends with both permissions present. -/
theorem claim_C1_witness :
    permX ∈ (⟨none, [permX, permY], Phase.finished, Phase.finished⟩ : ConcState).store ∧
    permY ∈ (⟨none, [permX, permY], Phase.finished, Phase.finished⟩ : ConcState).store :=
  claim_C1_concurrent_adds_no_lost_update [] permX permY schedAB
    ⟨none, [permX, permY], Phase.finished, Phase.finished⟩
    (by simp) (by simp) (by decide) (by decide) rfl rfl

end AzureAD
